import Mathlib

/-!
Shallow embedding of the micromechanics nanoindentation core
(`src/nanoindentation/tip.py`, `src/micromechanics/indentation/theory.py`,
`src/micromechanics/indentation/main.py`,
`src/micromechanics/indentation/calibration.py`) together with theorems
settling the frozen claims about it.

Real-valued (float) arithmetic of the source is modelled over `ℝ`;
array index logic is modelled over `ℕ`/`ℚ` where the source's arithmetic is
exact, so that concrete runs can be decided.
-/

namespace Micromechanics

open Real

/-- Indenter tip shape, mirroring the dispatch on `self.prefactors[-1]` in
`Tip.areaFunction` (src/nanoindentation/tip.py): an "iso" polynomial
(prefactor list without the trailing tag), "isoPlusConstant" (coefficients
plus the constant offset `prefactors[-2]`), the analytic "perfect" Berkovich
form, a "sphere" (radius [um] and opening angle [deg] from
`prefactors[0..1]`), or an empirical interpolation function. -/
inductive TipShape where
  | iso (coeffs : List ℝ)
  | isoPlusConstant (coeffs : List ℝ) (c : ℝ)
  | perfect
  | sphere (radius openingAngle : ℝ)
  | interp (f : ℝ → ℝ)

/-- Exponent `2./math.pow(2,i)` of the i-th iso polynomial term
(tip.py line 103). -/
noncomputable def isoExponent (i : ℕ) : ℝ := 2 / 2 ^ i

/-- Accumulated value of the loop `area += prefactors[i]*np.power(h,exponent)`
(tip.py lines 102-104), starting at term index `i` on one array entry `hn`
(units nm): the sum of `coeffs[k] * hn ^ (2/2^(i+k))`. -/
noncomputable def isoSum (ps : List ℝ) (i : ℕ) (hn : ℝ) : ℝ :=
  match ps with
  | [] => 0
  | p :: rest => p * hn ^ isoExponent i + isoSum rest (i + 1) hn

/-- Contact radius of the "sphere" branch for one entry `hn` (nm):
spherical section where `radius - h > radius*sin`, tapered cone otherwise
(tip.py lines 113-124).  `radiusUm` is `prefactors[0]` (um), converted to nm
inside; the angle is in degrees. -/
noncomputable def sphereContactRadius (radiusUm openingAngle hn : ℝ) : ℝ :=
  let radius := radiusUm * 1000
  let cosv := Real.cos (openingAngle / 180 * Real.pi)
  let sinv := Real.sin (openingAngle / 180 * Real.pi)
  let tanv := Real.tan (openingAngle / 180 * Real.pi)
  if radius - hn > radius * sinv then
    Real.sqrt (radius ^ 2 - (radius - hn) ^ 2)
  else
    radius / cosv - tanv * (radius - hn)

/-- Elementwise translation of `Tip.areaFunction`
(src/nanoindentation/tip.py lines 72-129): input contact depth in um,
converted to nm (`h = h*1000.`), clamped below the 1e-3 nm threshold
(`h[h<threshH] = threshH`), dispatched on the shape, negative areas clamped
to zero (`area[area<0] = 0.0`), and converted back nm^2 -> um^2 (`area/1.e6`).
The interpolation branch returns `interpFunction(h/1000.)` directly, before
the negative-area clamp and without the unit conversion, as in the source. -/
noncomputable def areaFunction (shape : TipShape) (h : ℝ) : ℝ :=
  let hn := h * 1000
  let hn := if hn < 1e-3 then 1e-3 else hn
  match shape with
  | .interp f => f (hn / 1000)
  | .iso ps => (if isoSum ps 0 hn < 0 then 0 else isoSum ps 0 hn) / 1e6
  | .isoPlusConstant ps c =>
      (if isoSum ps 0 (hn + c) < 0 then 0 else isoSum ps 0 (hn + c)) / 1e6
  | .perfect =>
      (if 24.494 * hn ^ 2 < 0 then 0 else 24.494 * hn ^ 2) / 1e6
  | .sphere r a =>
      let rArea := sphereContactRadius r a hn
      (if Real.pi * rArea * rArea < 0 then 0 else Real.pi * rArea * rArea) / 1e6

/-- Translation of `Tip.areaFunctionInverse` (src/nanoindentation/tip.py
lines 132-160).  The "iso" branch calls `scipy.optimize.newton`, modelled by
the root-finder oracle `newton`; the "perfect" branch is the closed form
`math.sqrt(area/24.494)`; every other shape falls through the `elif` chain to
a branch that only prints, leaving the local `h` unassigned, so the final
`return h` raises `UnboundLocalError` — modelled as `none`. -/
noncomputable def areaFunctionInverse (newton : (ℝ → ℝ) → ℝ → ℝ)
    (shape : TipShape) (area hc0 : ℝ) : Option ℝ :=
  match shape with
  | .iso _ => some (newton (fun height => areaFunction shape height - area) hc0)
  | .perfect => some (Real.sqrt (area / 24.494))
  | _ => none

/-- Model parameters used by the Oliver-Pharr routines
(`self.model` in src/micromechanics/indentation/definitions.py). -/
structure ModelR where
  beta : ℝ

/-- Default `beta` of 0.75 (definitions.py line 42). -/
def defaultModelR : ModelR := ⟨0.75⟩

/-- Elementwise translation of `OliverPharrMethod`
(src/micromechanics/indentation/theory.py lines 45-70):
`hc = h - nonMetal*beta*pMax/stiffness`, `Ac = tip.areaFunction(hc)` with
entries strictly below `threshAc = 1.e-12` raised to `threshAc`
(`Ac[Ac<threshAc] = threshAc`), and
`modulus = stiffness / (2.0*sqrt(Ac)/sqrt(pi))`; returns
`(modulus, Ac, hc)`. -/
noncomputable def OliverPharrMethod (model : ModelR) (shape : TipShape)
    (stiffness pMax h nonMetal : ℝ) : ℝ × ℝ × ℝ :=
  let threshAc : ℝ := 1e-12
  let hc := h - nonMetal * model.beta * pMax / stiffness
  let Ac := areaFunction shape hc
  let Ac := if Ac < threshAc then threshAc else Ac
  let modulus := stiffness / (2 * Real.sqrt Ac / Real.sqrt Real.pi)
  (modulus, Ac, hc)

/-- Translation of `inverseOliverPharrMethod` (theory.py lines 73-93):
`Ac = (stiffness / (2*modulusRed/sqrt(pi)))**2`, first guess
`hc0 = sqrt(Ac/24.494)` (perfect Berkovich), `hc` from
`tip.areaFunctionInverse`, and `h = hc + nonMetal*beta*pMax/stiffness`.
Returns `none` when the area-function inversion raises. -/
noncomputable def inverseOliverPharrMethod (newton : (ℝ → ℝ) → ℝ → ℝ)
    (model : ModelR) (shape : TipShape)
    (stiffness pMax modulusRed nonMetal : ℝ) : Option ℝ :=
  let Ac := (stiffness / (2 * modulusRed / Real.sqrt Real.pi)) ^ 2
  let hc0 := Real.sqrt (Ac / 24.494)
  match areaFunctionInverse newton shape Ac hc0 with
  | none => none
  | some hc => some (hc + nonMetal * model.beta * pMax / stiffness)

/-- C1: with `nonMetal = 1`, `OliverPharrMethod` returns, in order,
`hc = h - beta*P/S`, `Ac = areaFunction(hc)` with every entry strictly below
1e-12 raised to exactly 1e-12, and `modulusRed = S/(2*sqrt(Ac)/sqrt(pi))`,
which moreover equals the spec's form `S/(2*sqrt(Ac/pi))`. -/
theorem OliverPharr_forward_spec (model : ModelR) (shape : TipShape)
    (S P h : ℝ) (hS : 0 < S) :
    (OliverPharrMethod model shape S P h 1).2.2 = h - model.beta * P / S ∧
    (OliverPharrMethod model shape S P h 1).2.1 =
      (if areaFunction shape (h - model.beta * P / S) < 1e-12 then 1e-12
       else areaFunction shape (h - model.beta * P / S)) ∧
    (OliverPharrMethod model shape S P h 1).1 =
      S / (2 * Real.sqrt ((OliverPharrMethod model shape S P h 1).2.1) /
        Real.sqrt Real.pi) ∧
    (OliverPharrMethod model shape S P h 1).1 =
      S / (2 * Real.sqrt ((OliverPharrMethod model shape S P h 1).2.1 /
        Real.pi)) := by
  refine ⟨by simp [OliverPharrMethod], by simp [OliverPharrMethod], rfl, ?_⟩
  have hAc : (0:ℝ) ≤ (OliverPharrMethod model shape S P h 1).2.1 := by
    simp only [OliverPharrMethod]
    split
    · norm_num
    · rename_i hlt
      push_neg at hlt
      linarith
  rw [show (OliverPharrMethod model shape S P h 1).1 =
      S / (2 * Real.sqrt ((OliverPharrMethod model shape S P h 1).2.1) /
        Real.sqrt Real.pi) from rfl]
  rw [Real.sqrt_div hAc]
  ring

/-- Witness for C1 at `S = 1`, `P = 0`, `h = 1` with the perfect tip. -/
theorem OliverPharr_forward_spec_witness :
    (OliverPharrMethod defaultModelR TipShape.perfect 1 0 1 1).2.2 =
      1 - defaultModelR.beta * 0 / 1 ∧
    (OliverPharrMethod defaultModelR TipShape.perfect 1 0 1 1).2.1 =
      (if areaFunction TipShape.perfect (1 - defaultModelR.beta * 0 / 1) < 1e-12
       then 1e-12
       else areaFunction TipShape.perfect (1 - defaultModelR.beta * 0 / 1)) ∧
    (OliverPharrMethod defaultModelR TipShape.perfect 1 0 1 1).1 =
      1 / (2 * Real.sqrt ((OliverPharrMethod defaultModelR TipShape.perfect
        1 0 1 1).2.1) / Real.sqrt Real.pi) ∧
    (OliverPharrMethod defaultModelR TipShape.perfect 1 0 1 1).1 =
      1 / (2 * Real.sqrt ((OliverPharrMethod defaultModelR TipShape.perfect
        1 0 1 1).2.1 / Real.pi)) :=
  OliverPharr_forward_spec defaultModelR TipShape.perfect 1 0 1 (by norm_num)

/-- Evaluation of the perfect-Berkovich area function above the clamp
threshold: for `h >= 1e-6` um the nm-clamp is inactive and
`areaFunction(h) = 24.494*h^2` (um^2). -/
theorem areaFunction_perfect_of_le (h : ℝ) (hh : 1e-6 ≤ h) :
    areaFunction TipShape.perfect h = 24.494 * h ^ 2 := by
  have h1 : ¬ (h * 1000 < 1e-3) := by push_neg; nlinarith
  have h2 : ¬ (24.494 * (h * 1000) ^ 2 < 0) := by push_neg; positivity
  simp only [areaFunction, h1, if_false, h2]
  ring

/-- Evaluation of the perfect-Berkovich area function below the clamp
threshold: for `h < 1e-6` um the depth is clamped to 1e-3 nm and the area is
the constant `2.4494e-11` um^2. -/
theorem areaFunction_perfect_of_lt (h : ℝ) (hh : h < 1e-6) :
    areaFunction TipShape.perfect h = 2.4494e-11 := by
  have h1 : h * 1000 < 1e-3 := by nlinarith
  have h2 : ¬ ((24.494:ℝ) * (1e-3) ^ 2 < 0) := by norm_num
  simp only [areaFunction, h1, if_true, h2, if_false]
  norm_num

/-- C2 (amended): for `S, P, modulusRed > 0` with the perfect tip, whenever
the algebraically recovered contact depth `hc = sqrt(Ac/24.494)` is at least
the 1e-6 um (1 pm) clamp threshold of `areaFunction`, composing
`OliverPharrMethod` with `inverseOliverPharrMethod` reproduces
`(modulusRed, Ac, hc)` exactly (in particular within 1e-3 relative error). -/
theorem inverseOliverPharr_roundTrip (newton : (ℝ → ℝ) → ℝ → ℝ)
    (model : ModelR) (S P Er : ℝ) (hS : 0 < S) (hP : 0 < P) (hE : 0 < Er)
    (hhc : 1e-6 ≤ Real.sqrt ((S / (2 * Er / Real.sqrt Real.pi)) ^ 2 / 24.494)) :
    inverseOliverPharrMethod newton model TipShape.perfect S P Er 1 =
      some (Real.sqrt ((S / (2 * Er / Real.sqrt Real.pi)) ^ 2 / 24.494) +
        model.beta * P / S) ∧
    (OliverPharrMethod model TipShape.perfect S P
      (Real.sqrt ((S / (2 * Er / Real.sqrt Real.pi)) ^ 2 / 24.494) +
        model.beta * P / S) 1).1 = Er ∧
    (OliverPharrMethod model TipShape.perfect S P
      (Real.sqrt ((S / (2 * Er / Real.sqrt Real.pi)) ^ 2 / 24.494) +
        model.beta * P / S) 1).2.1 = (S / (2 * Er / Real.sqrt Real.pi)) ^ 2 ∧
    (OliverPharrMethod model TipShape.perfect S P
      (Real.sqrt ((S / (2 * Er / Real.sqrt Real.pi)) ^ 2 / 24.494) +
        model.beta * P / S) 1).2.2 =
      Real.sqrt ((S / (2 * Er / Real.sqrt Real.pi)) ^ 2 / 24.494) := by
  have hpi : (0:ℝ) < Real.pi := Real.pi_pos
  have hspi : (0:ℝ) < Real.sqrt Real.pi := Real.sqrt_pos.mpr hpi
  have hq : (0:ℝ) < S / (2 * Er / Real.sqrt Real.pi) := by positivity
  set q : ℝ := S / (2 * Er / Real.sqrt Real.pi) with hqdef
  set hcE : ℝ := Real.sqrt (q ^ 2 / 24.494) with hhcdef
  have hc2 : hcE ^ 2 = q ^ 2 / 24.494 := Real.sq_sqrt (by positivity)
  have hcpos : (0:ℝ) ≤ hcE := Real.sqrt_nonneg _
  have harg : (OliverPharrMethod model TipShape.perfect S P
      (hcE + model.beta * P / S) 1).2.2 = hcE := by
    simp only [OliverPharrMethod]
    field_simp
  have hA : areaFunction TipShape.perfect hcE = q ^ 2 := by
    rw [areaFunction_perfect_of_le hcE hhc, hc2]
    ring
  have hAbig : ¬ (areaFunction TipShape.perfect hcE < 1e-12) := by
    rw [hA]
    push_neg
    have h12 : (1e-12 : ℝ) ≤ hcE ^ 2 := by nlinarith
    have hq2 : q ^ 2 = 24.494 * hcE ^ 2 := by rw [hc2]; ring
    rw [hq2]
    linarith
  refine ⟨?_, ?_, ?_, harg⟩
  · simp only [inverseOliverPharrMethod, areaFunctionInverse, hqdef, hhcdef]
    norm_num
  · show (S / (2 * Real.sqrt (if areaFunction TipShape.perfect
        ((hcE + model.beta * P / S) - 1 * model.beta * P / S) < 1e-12
        then 1e-12 else areaFunction TipShape.perfect
        ((hcE + model.beta * P / S) - 1 * model.beta * P / S)) /
        Real.sqrt Real.pi)) = Er
    have hred : (hcE + model.beta * P / S) - 1 * model.beta * P / S = hcE := by
      ring
    rw [hred, if_neg hAbig, hA, Real.sqrt_sq hq.le, hqdef]
    field_simp
    ring
  · show (if areaFunction TipShape.perfect
        ((hcE + model.beta * P / S) - 1 * model.beta * P / S) < 1e-12
        then 1e-12 else areaFunction TipShape.perfect
        ((hcE + model.beta * P / S) - 1 * model.beta * P / S)) = q ^ 2
    have hred : (hcE + model.beta * P / S) - 1 * model.beta * P / S = hcE := by
      ring
    rw [hred, if_neg hAbig, hA]

/-- Witness for the amended C2 at `S = P = modulusRed = 1`. -/
theorem inverseOliverPharr_roundTrip_witness :
    inverseOliverPharrMethod (fun _ x => x) defaultModelR TipShape.perfect
        1 1 1 1 =
      some (Real.sqrt (((1:ℝ) / (2 * 1 / Real.sqrt Real.pi)) ^ 2 / 24.494) +
        defaultModelR.beta * 1 / 1) ∧
    (OliverPharrMethod defaultModelR TipShape.perfect 1 1
      (Real.sqrt (((1:ℝ) / (2 * 1 / Real.sqrt Real.pi)) ^ 2 / 24.494) +
        defaultModelR.beta * 1 / 1) 1).1 = 1 ∧
    (OliverPharrMethod defaultModelR TipShape.perfect 1 1
      (Real.sqrt (((1:ℝ) / (2 * 1 / Real.sqrt Real.pi)) ^ 2 / 24.494) +
        defaultModelR.beta * 1 / 1) 1).2.1 =
      ((1:ℝ) / (2 * 1 / Real.sqrt Real.pi)) ^ 2 ∧
    (OliverPharrMethod defaultModelR TipShape.perfect 1 1
      (Real.sqrt (((1:ℝ) / (2 * 1 / Real.sqrt Real.pi)) ^ 2 / 24.494) +
        defaultModelR.beta * 1 / 1) 1).2.2 =
      Real.sqrt (((1:ℝ) / (2 * 1 / Real.sqrt Real.pi)) ^ 2 / 24.494) := by
  refine inverseOliverPharr_roundTrip (fun _ x => x) defaultModelR 1 1 1
    (by norm_num) (by norm_num) (by norm_num) ?_
  have hpi : (0:ℝ) < Real.pi := Real.pi_pos
  have hspi : (0:ℝ) < Real.sqrt Real.pi := Real.sqrt_pos.mpr hpi
  have hval : ((1:ℝ) / (2 * 1 / Real.sqrt Real.pi)) ^ 2 / 24.494 =
      Real.pi / 97.976 := by
    have h2 : ((1:ℝ) / (2 * 1 / Real.sqrt Real.pi)) = Real.sqrt Real.pi / 2 := by
      rw [one_div_div]
      norm_num
    rw [h2, div_pow, Real.sq_sqrt hpi.le, div_div]
    norm_num
  rw [hval]
  have h976 : (0:ℝ) < 97.976 := by norm_num
  have hb : (1e-12 : ℝ) ≤ Real.pi / 97.976 := by
    rw [le_div_iff h976]
    nlinarith [Real.pi_gt_three]
  calc (1e-6 : ℝ) = Real.sqrt ((1e-6)^2) := by
        rw [Real.sqrt_sq]; norm_num
    _ ≤ Real.sqrt (Real.pi / 97.976) := by
        apply Real.sqrt_le_sqrt
        have he : ((1e-6:ℝ))^2 = 1e-12 := by norm_num
        rw [he]
        exact hb

/-- Counterexample to C2 as stated: at `S = 1`, `P = 1`, `modulusRed = 1e9`
the recovered contact depth lies below the 1 pm clamp of `areaFunction`, and
the round trip returns a reduced modulus below 1e6, more than 1e-3 relative
error away from 1e9. -/
theorem inverseOliverPharr_roundTrip_cex :
    ¬ (|(OliverPharrMethod defaultModelR TipShape.perfect 1 1
        ((inverseOliverPharrMethod (fun _ x => x) defaultModelR
          TipShape.perfect 1 1 (1e9) 1).getD 0) 1).1 - 1e9| ≤ 1e-3 * 1e9) := by
  have hpi : (0:ℝ) < Real.pi := Real.pi_pos
  have hpi4 : Real.pi < 4 := by
    have := Real.pi_lt_315
    linarith
  have hspi : (0:ℝ) < Real.sqrt Real.pi := Real.sqrt_pos.mpr hpi
  have hspi2 : Real.sqrt Real.pi < 2 := by
    rw [show (2:ℝ) = Real.sqrt 4 by
      rw [show (4:ℝ) = 2^2 by norm_num, Real.sqrt_sq]; norm_num]
    exact Real.sqrt_lt_sqrt hpi.le hpi4
  set x : ℝ := ((1:ℝ) / (2 * 1e9 / Real.sqrt Real.pi)) ^ 2 / 24.494 with hxdef
  have hxpos : 0 ≤ x := by positivity
  have hxsmall : x < 1e-12 := by
    have hq : ((1:ℝ) / (2 * 1e9 / Real.sqrt Real.pi)) =
        Real.sqrt Real.pi / (2 * 1e9) := one_div_div _ _
    rw [hxdef, hq, div_pow, Real.sq_sqrt hpi.le, div_div]
    rw [div_lt_iff (by positivity)]
    have hc : (1e-12:ℝ) * ((2 * 1e9) ^ 2 * 24.494) = 97976000 := by norm_num
    rw [hc]
    linarith
  have hhc : Real.sqrt x < 1e-6 := by
    rw [show (1e-6:ℝ) = Real.sqrt ((1e-6)^2) by
      rw [Real.sqrt_sq]; norm_num]
    apply Real.sqrt_lt_sqrt hxpos
    have he : ((1e-6:ℝ))^2 = 1e-12 := by norm_num
    rw [he]
    exact hxsmall
  have hinv : (inverseOliverPharrMethod (fun _ x => x) defaultModelR
      TipShape.perfect 1 1 (1e9) 1).getD 0 =
      Real.sqrt x + 1 * defaultModelR.beta * 1 / 1 := by
    simp only [inverseOliverPharrMethod, areaFunctionInverse, hxdef,
      Option.getD_some]
  rw [hinv]
  have hred : (Real.sqrt x + 1 * defaultModelR.beta * 1 / 1) -
      1 * defaultModelR.beta * 1 / 1 = Real.sqrt x := by ring
  have hA : areaFunction TipShape.perfect (Real.sqrt x) = 2.4494e-11 :=
    areaFunction_perfect_of_lt _ hhc
  have hm : (OliverPharrMethod defaultModelR TipShape.perfect 1 1
      (Real.sqrt x + 1 * defaultModelR.beta * 1 / 1) 1).1 =
      1 / (2 * Real.sqrt 2.4494e-11 / Real.sqrt Real.pi) := by
    show (1 / (2 * Real.sqrt (if areaFunction TipShape.perfect
        ((Real.sqrt x + 1 * defaultModelR.beta * 1 / 1) -
          1 * defaultModelR.beta * 1 / 1) < 1e-12
        then 1e-12 else areaFunction TipShape.perfect
        ((Real.sqrt x + 1 * defaultModelR.beta * 1 / 1) -
          1 * defaultModelR.beta * 1 / 1)) / Real.sqrt Real.pi)) = _
    rw [hred, hA, if_neg (by norm_num)]
  rw [hm]
  have hsmall : Real.sqrt 2.4494e-11 > 3e-6 := by
    have : ((3e-6:ℝ))^2 < 2.4494e-11 := by norm_num
    calc (3e-6:ℝ) = Real.sqrt ((3e-6)^2) := by
          rw [Real.sqrt_sq]; norm_num
      _ < Real.sqrt 2.4494e-11 := Real.sqrt_lt_sqrt (by norm_num) this
  have hden : (0:ℝ) < 2 * Real.sqrt 2.4494e-11 / Real.sqrt Real.pi := by
    have : (0:ℝ) < Real.sqrt 2.4494e-11 := by
      apply Real.sqrt_pos.mpr; norm_num
    positivity
  have hmod : 1 / (2 * Real.sqrt 2.4494e-11 / Real.sqrt Real.pi) < 1e6 := by
    rw [div_lt_iff hden]
    have h1 : (1e6:ℝ) * (2 * Real.sqrt 2.4494e-11 / Real.sqrt Real.pi) =
        2e6 * Real.sqrt 2.4494e-11 / Real.sqrt Real.pi := by ring
    rw [h1, lt_div_iff hspi]
    nlinarith [hsmall, hspi2, hspi]
  intro habs
  have h1 := (abs_le.mp habs).1
  nlinarith


/-- The nm-clamp `h[h<threshH] = threshH` of `areaFunction` written as a
`max`. -/
theorem clampNm_eq_max (h : ℝ) :
    (if h * 1000 < 1e-3 then (1e-3:ℝ) else h * 1000) = max 1e-3 (h * 1000) := by
  rcases lt_or_le (h * 1000) 1e-3 with hlt | hle
  · rw [if_pos hlt, max_eq_left hlt.le]
  · rw [if_neg (not_lt.mpr hle), max_eq_right hle]

/-- Closed form of the perfect-Berkovich branch of `areaFunction` for every
input: the negative-area clamp is inactive because the square is
non-negative. -/
theorem areaFunction_perfect_eq (h : ℝ) :
    areaFunction TipShape.perfect h =
      24.494 * (if h * 1000 < 1e-3 then (1e-3:ℝ) else h * 1000) ^ 2 / 1e6 := by
  by_cases hc : h * 1000 < 1e-3
  · have h2 : ¬ ((24.494:ℝ) * (1e-3) ^ 2 < 0) := by norm_num
    simp only [areaFunction, hc, if_true, h2, if_false]
  · have h0 : (0:ℝ) ≤ h * 1000 := by push_neg at hc; linarith
    have h2 : ¬ ((24.494:ℝ) * (h * 1000) ^ 2 < 0) := by
      push_neg; positivity
    simp only [areaFunction, hc, if_false, h2]

/-- First two terms of the iso polynomial sum, with the real-exponent powers
`2/2^0 = 2` and `2/2^1 = 1` evaluated (for a non-negative entry). -/
theorem isoSum_two (a b hn : ℝ) (hpos : 0 ≤ hn) :
    isoSum [a, b] 0 hn = a * hn ^ (2:ℕ) + b * hn := by
  have e0 : isoExponent 0 = 2 := by norm_num [isoExponent]
  have e1 : isoExponent 1 = 1 := by norm_num [isoExponent]
  simp only [isoSum, e0, e1, Real.rpow_one]
  rw [show (2:ℝ) = ((2:ℕ):ℝ) by norm_num, Real.rpow_natCast]
  ring

/-- C9 (amended): for the analytic perfect-Berkovich shape, `areaFunction`
is non-decreasing in `hc` on all of `ℝ`, and for every contact depth at or
above the 1e-6 um (1 pm) clamp threshold the closed-form
`areaFunctionInverse` recovers it exactly.  (The general claim fails: iso
polynomials with a negative coefficient are not monotone, and
`areaFunctionInverse` supports only the iso and perfect shapes.) -/
theorem areaFunction_perfect_monotone_roundTrip
    (newton : (ℝ → ℝ) → ℝ → ℝ) (h1 h2 h3 hc0 : ℝ)
    (h12 : h1 ≤ h2) (h3cl : 1e-6 ≤ h3) :
    areaFunction TipShape.perfect h1 ≤ areaFunction TipShape.perfect h2 ∧
    areaFunctionInverse newton TipShape.perfect
      (areaFunction TipShape.perfect h3) hc0 = some h3 := by
  constructor
  · rw [areaFunction_perfect_eq h1, areaFunction_perfect_eq h2,
      clampNm_eq_max, clampNm_eq_max]
    have hm : max 1e-3 (h1 * 1000) ≤ max 1e-3 (h2 * 1000) :=
      max_le_max le_rfl (by linarith)
    have h0 : (0:ℝ) ≤ max 1e-3 (h1 * 1000) :=
      le_trans (by norm_num) (le_max_left _ _)
    gcongr
  · rw [areaFunction_perfect_of_le h3 h3cl]
    simp only [areaFunctionInverse, Option.some.injEq]
    rw [show (24.494:ℝ) * h3 ^ 2 / 24.494 = h3 ^ 2 by
      field_simp]
    exact Real.sqrt_sq (by linarith)

/-- Witness for the amended C9 at `h1 = 0`, `h2 = 1`, `h3 = 1`. -/
theorem areaFunction_perfect_monotone_roundTrip_witness :
    areaFunction TipShape.perfect 0 ≤ areaFunction TipShape.perfect 1 ∧
    areaFunctionInverse (fun _ x => x) TipShape.perfect
      (areaFunction TipShape.perfect 1) 0 = some 1 :=
  areaFunction_perfect_monotone_roundTrip (fun _ x => x) 0 1 1 0
    (by norm_num) (by norm_num)

/-- Counterexample to C9 as stated: the supported iso polynomial shape with
prefactors `[-1, 100]` is strictly decreasing between contact depths 0.06 um
and 0.08 um, so `areaFunction` is not non-decreasing for every supported
tip shape. -/
theorem areaFunction_iso_not_monotone :
    (0.06:ℝ) ≤ 0.08 ∧
    ¬ (areaFunction (TipShape.iso [-1, 100]) 0.06 ≤
       areaFunction (TipShape.iso [-1, 100]) 0.08) := by
  have e6 : areaFunction (TipShape.iso [-1, 100]) 0.06 = 2400 / 1e6 := by
    have hcl : ¬ ((0.06:ℝ) * 1000 < 1e-3) := by norm_num
    have hs : isoSum [-1, 100] 0 ((0.06:ℝ) * 1000) = 2400 := by
      rw [isoSum_two _ _ _ (by norm_num)]
      norm_num
    have hneg : ¬ (isoSum [-1, 100] 0 ((0.06:ℝ) * 1000) < 0) := by
      rw [hs]; norm_num
    simp only [areaFunction, hcl, if_false, hneg, hs]
    norm_num
  have e8 : areaFunction (TipShape.iso [-1, 100]) 0.08 = 1600 / 1e6 := by
    have hcl : ¬ ((0.08:ℝ) * 1000 < 1e-3) := by norm_num
    have hs : isoSum [-1, 100] 0 ((0.08:ℝ) * 1000) = 1600 := by
      rw [isoSum_two _ _ _ (by norm_num)]
      norm_num
    have hneg : ¬ (isoSum [-1, 100] 0 ((0.08:ℝ) * 1000) < 0) := by
      rw [hs]; norm_num
    simp only [areaFunction, hcl, if_false, hneg, hs]
    norm_num
  rw [e6, e8]
  norm_num

/-- Store of numpy arrays: a Python array variable is a reference (index)
into the store, so in-place mutation of one array is visible through every
alias while `numpy` arithmetic such as `h * 1000.` allocates a fresh
array. -/
abbrev Heap := List (List ℝ)

/-- Read the array behind reference `r`. -/
def hread (st : Heap) (r : ℕ) : List ℝ := st.getD r []

/-- In-place overwrite of the array behind reference `r`. -/
def hwrite (st : Heap) (r : ℕ) (v : List ℝ) : Heap := st.set r v

/-- Allocate a fresh array, returning the new store and its reference. -/
def halloc (st : Heap) (v : List ℝ) : Heap × ℕ := (st ++ [v], st.length)

/-- Reading an untouched reference after an allocation. -/
theorem hread_halloc (st : Heap) (v : List ℝ) (arg : ℕ)
    (h : arg < st.length) : hread (halloc st v).1 arg = hread st arg := by
  unfold hread halloc
  simp only [List.getD_eq_getElem?_getD, List.getElem?_append_left h]

/-- Reading a reference different from the one overwritten. -/
theorem hread_hwrite (st : Heap) (r : ℕ) (v : List ℝ) (arg : ℕ)
    (hne : arg ≠ r) : hread (hwrite st r v) arg = hread st arg := by
  unfold hread hwrite
  simp only [List.getD_eq_getElem?_getD, List.getElem?_set_ne (Ne.symm hne)]

/-- Overwriting preserves the store size. -/
theorem hwrite_length (st : Heap) (r : ℕ) (v : List ℝ) :
    (hwrite st r v).length = st.length := List.length_set st r v

/-- One in-place step of the iso loop `area += prefactors[i]*np.power(h,
exponent)` (tip.py lines 102-104): reads the depth array at `rh` and the
running area at `ra`, and writes the updated area back to `ra`. -/
noncomputable def isoLoopStep (ps : List ℝ) (rh ra : ℕ) (st : Heap)
    (i : ℕ) : Heap :=
  hwrite st ra (List.zipWith
    (fun a x => a + ps.getD i 0 * x ^ isoExponent i)
    (hread st ra) (hread st rh))

/-- Final statements of `Tip.areaFunction` (tip.py lines 128-129): the
in-place clamp `area[area<0] = 0.0` on the array at `ra`, then the freshly
allocated `area/1.e6` that the function returns. -/
noncomputable def areaEpilogue (st : Heap) (ra : ℕ) : Heap × ℕ :=
  let st1 := hwrite st ra ((hread st ra).map (fun x => if x < 0 then 0 else x))
  halloc st1 ((hread st1 ra).map (fun x => x / 1e6))

/-- Opening statements of `Tip.areaFunction` (tip.py lines 93-96):
`h = h*1000.` allocates a fresh array and rebinds the local `h` to it,
`h[h<threshH] = threshH` clamps that fresh array in place, and
`area = np.zeros_like(h)` allocates the accumulator.  Returns the new store
together with the references of the local `h` and of `area`. -/
noncomputable def areaPrologue (st0 : Heap) (arg : ℕ) : Heap × ℕ × ℕ :=
  let a1 := halloc st0 ((hread st0 arg).map (fun x => x * 1000))
  let st2 := hwrite a1.1 a1.2
    ((hread a1.1 a1.2).map (fun x => if x < 1e-3 then 1e-3 else x))
  let a3 := halloc st2 (List.replicate (hread st2 a1.2).length 0)
  (a3.1, a1.2, a3.2)

/-- The prologue allocates exactly two arrays. -/
theorem areaPrologue_length (st : Heap) (arg : ℕ) :
    (areaPrologue st arg).1.length = st.length + 2 := by
  simp [areaPrologue, halloc, hwrite]

/-- The local `h` of the prologue is the first fresh reference. -/
theorem areaPrologue_rh (st : Heap) (arg : ℕ) :
    (areaPrologue st arg).2.1 = st.length := rfl

/-- The `area` accumulator of the prologue is the second fresh reference. -/
theorem areaPrologue_ra (st : Heap) (arg : ℕ) :
    (areaPrologue st arg).2.2 = st.length + 1 := by
  simp [areaPrologue, halloc, hwrite]

/-- The prologue never touches a caller-owned array. -/
theorem areaPrologue_hread (st : Heap) (arg : ℕ) (harg : arg < st.length) :
    hread (areaPrologue st arg).1 arg = hread st arg := by
  unfold areaPrologue
  rw [hread_halloc _ _ _ (by simp [halloc, hwrite]; omega),
    hread_hwrite _ _ _ _ (by simp [halloc]; omega),
    hread_halloc _ _ _ harg]

/-- Heap-level translation of `Tip.areaFunction` (tip.py lines 72-129),
modelling the aliasing of the numpy code: after the prologue rebinds the
local `h` to a fresh array, every in-place mutation — the nm clamp, the
`h += prefactors[-2]` offset, the iso loop accumulation, the masked `rArea`
assignments of the sphere branch (written together as one full-coverage
update) and the `area[area<0] = 0.0` clamp — targets arrays allocated
inside the call.  The caller passes the reference `arg` of its
contact-depth array; the result is the final store and the reference of the
returned area array. -/
noncomputable def areaFunctionProg (shape : TipShape) (st0 : Heap)
    (arg : ℕ) : Heap × ℕ :=
  let pro := areaPrologue st0 arg
  let st3 := pro.1
  let rh := pro.2.1
  let ra := pro.2.2
  match shape with
  | .interp f => halloc st3 ((hread st3 rh).map (fun x => f (x / 1000)))
  | .iso ps =>
      let st4 := (List.range ps.length).foldl (isoLoopStep ps rh ra) st3
      areaEpilogue st4 ra
  | .isoPlusConstant ps c =>
      let st4 := hwrite st3 rh ((hread st3 rh).map (fun x => x + c))
      let st5 := (List.range ps.length).foldl (isoLoopStep ps rh ra) st4
      areaEpilogue st5 ra
  | .perfect =>
      let a4 := halloc st3 ((hread st3 rh).map (fun x => 24.494 * x ^ 2))
      areaEpilogue a4.1 a4.2
  | .sphere r ang =>
      let a4 := halloc st3 (List.replicate (hread st3 rh).length 0)
      let st4 := hwrite a4.1 a4.2
        ((hread a4.1 rh).map (sphereContactRadius r ang))
      let a5 := halloc st4 ((hread st4 a4.2).map (fun x => Real.pi * x * x))
      areaEpilogue a5.1 a5.2

/-- The iso accumulation loop only writes to the area reference `ra`. -/
theorem foldl_isoLoopStep_hread (ps : List ℝ) (rh ra : ℕ) (arg : ℕ)
    (hne : arg ≠ ra) (l : List ℕ) (st : Heap) :
    hread (l.foldl (isoLoopStep ps rh ra) st) arg = hread st arg := by
  induction l generalizing st with
  | nil => rfl
  | cons i rest ih =>
      rw [List.foldl_cons, ih, isoLoopStep, hread_hwrite _ _ _ _ hne]

/-- The iso accumulation loop preserves the store size. -/
theorem foldl_isoLoopStep_length (ps : List ℝ) (rh ra : ℕ)
    (l : List ℕ) (st : Heap) :
    (l.foldl (isoLoopStep ps rh ra) st).length = st.length := by
  induction l generalizing st with
  | nil => rfl
  | cons i rest ih =>
      rw [List.foldl_cons, ih, isoLoopStep, hwrite_length]

/-- The epilogue of `areaFunction` leaves every reference other than the
area array unchanged. -/
theorem areaEpilogue_hread (st : Heap) (ra arg : ℕ) (hne : arg ≠ ra)
    (hlt : arg < st.length) :
    hread (areaEpilogue st ra).1 arg = hread st arg := by
  unfold areaEpilogue
  rw [hread_halloc _ _ _ (by rw [hwrite_length]; exact hlt),
    hread_hwrite _ _ _ _ hne]

/-- C10: for every tip shape and every caller-owned contact-depth array,
`areaFunction` leaves the caller's array unchanged — the um-to-nm scaling,
the 1e-3 nm depth clamp, the `isoPlusConstant` offset, the area
accumulation and the negative-area clamp all mutate arrays allocated inside
the call, never the argument. -/
theorem areaFunctionProg_preserves_caller (shape : TipShape) (st : Heap)
    (arg : ℕ) (harg : arg < st.length) :
    hread (areaFunctionProg shape st arg).1 arg = hread st arg := by
  have hpre := areaPrologue_hread st arg harg
  have hlen := areaPrologue_length st arg
  have hrh := areaPrologue_rh st arg
  have hra := areaPrologue_ra st arg
  cases shape with
  | interp f =>
      simp only [areaFunctionProg]
      rw [hread_halloc _ _ _ (by rw [hlen]; omega), hpre]
  | iso ps =>
      simp only [areaFunctionProg]
      rw [areaEpilogue_hread _ _ _ (by rw [hra]; omega)
          (by rw [foldl_isoLoopStep_length, hlen]; omega),
        foldl_isoLoopStep_hread _ _ _ _ (by rw [hra]; omega), hpre]
  | isoPlusConstant ps c =>
      simp only [areaFunctionProg]
      rw [areaEpilogue_hread _ _ _ (by rw [hra]; omega)
          (by rw [foldl_isoLoopStep_length, hwrite_length, hlen]; omega),
        foldl_isoLoopStep_hread _ _ _ _ (by rw [hra]; omega),
        hread_hwrite _ _ _ _ (by rw [hrh]; omega), hpre]
  | perfect =>
      simp only [areaFunctionProg]
      rw [areaEpilogue_hread _ _ _
          (by show arg ≠ (halloc _ _).2; simp only [halloc]; rw [hlen]; omega)
          (by show arg < (halloc _ _).1.length
              simp only [halloc, List.length_append, List.length_cons,
                List.length_nil]
              rw [hlen]; omega),
        hread_halloc _ _ _ (by rw [hlen]; omega), hpre]
  | sphere r ang =>
      simp only [areaFunctionProg]
      rw [areaEpilogue_hread _ _ _
          (by show arg ≠ (halloc _ _).2
              simp only [halloc, hwrite_length, List.length_append,
                List.length_cons, List.length_nil]
              rw [hlen]; omega)
          (by show arg < (halloc _ _).1.length
              simp only [halloc, List.length_append, List.length_cons,
                List.length_nil, hwrite_length]
              rw [hlen]; omega),
        hread_halloc _ _ _
          (by simp only [hwrite_length, halloc, List.length_append,
                List.length_cons, List.length_nil]
              rw [hlen]; omega),
        hread_hwrite _ _ _ _
          (by show arg ≠ (halloc _ _).2; simp only [halloc]; rw [hlen]; omega),
        hread_halloc _ _ _ (by rw [hlen]; omega), hpre]

/-- Witness for C10: a one-array store with the perfect tip. -/
theorem areaFunctionProg_preserves_caller_witness :
    hread (areaFunctionProg TipShape.perfect [[(1:ℝ)]] 0).1 0 =
      hread [[(1:ℝ)]] 0 :=
  areaFunctionProg_preserves_caller TipShape.perfect [[(1:ℝ)]] 0
    (by norm_num)

/-- One iteration of the cycle-zipping loop of `identifyLoadHoldUnload`
(src/micromechanics/indentation/main.py lines 264-277) at candidate `i`:
reads `loadIdx[::2][i] = loadIdx[2i]`, `loadIdx[1::2][i] = loadIdx[2i+1]`,
`unloadIdx[::2][i] = unloadIdx[2i]`, `unloadIdx[1::2][i] = unloadIdx[2i+1]`
(a missing element is the `IndexError` the surrounding `try` catches,
modelled as `none`).  A candidate passing the ordering test
`loadStart < loadEnd <= unloadStart < unloadEnd` and the bounds test
`np.min(newEntry) > 0 and np.max(newEntry) < len(h)` is appended; otherwise
an error is printed and an empty entry `[]` is appended whenever the
accumulated list is nonempty (`if len(self.iLHU)>0: self.iLHU.append([])`). -/
def buildILHUStep (loadIdx unloadIdx : List ℕ) (n : ℕ)
    (acc : List (List ℕ)) (i : ℕ) : Option (List (List ℕ)) :=
  match loadIdx.get? (2 * i), loadIdx.get? (2 * i + 1),
      unloadIdx.get? (2 * i), unloadIdx.get? (2 * i + 1) with
  | some a, some b, some c, some d =>
      if a < b ∧ b ≤ c ∧ c < d then
        if 0 < min (min a b) (min c d) ∧ max (max a b) (max c d) < n then
          some (acc ++ [[a, b, c, d]])
        else some (if 0 < acc.length then acc ++ [[]] else acc)
      else some (if 0 < acc.length then acc ++ [[]] else acc)
  | _, _, _, _ => none

/-- The cycle list `iLHU` assembled by `identifyLoadHoldUnload`
(main.py lines 259-280) from the edge index lists: the loop runs over
`enumerate(loadIdx[::2])` (that is, `ceil(len(loadIdx)/2)` candidates) and
the enclosing `except:` resets the whole list to `[]` on any
`IndexError`. -/
def buildILHU (loadIdx unloadIdx : List ℕ) (n : ℕ) : List (List ℕ) :=
  match (List.range ((loadIdx.length + 1) / 2)).foldlM
      (buildILHUStep loadIdx unloadIdx n) [] with
  | some l => l
  | none => []

/-- Every entry produced by the zipping loop is either the empty placeholder
or an ordered in-bounds 4-tuple, provided the accumulator already satisfied
this. -/
theorem buildILHUStep_foldlM_inv (loadIdx unloadIdx : List ℕ) (n : ℕ)
    (idxs : List ℕ) :
    ∀ (acc res : List (List ℕ)),
      (∀ e ∈ acc, e = [] ∨ ∃ a b c d, e = [a, b, c, d] ∧
        a < b ∧ b ≤ c ∧ c < d ∧ 0 < a ∧ d < n) →
      idxs.foldlM (buildILHUStep loadIdx unloadIdx n) acc = some res →
      ∀ e ∈ res, e = [] ∨ ∃ a b c d, e = [a, b, c, d] ∧
        a < b ∧ b ≤ c ∧ c < d ∧ 0 < a ∧ d < n := by
  induction idxs with
  | nil =>
      intro acc res hacc hfold
      simp only [List.foldlM_nil, Option.pure_def, Option.some.injEq] at hfold
      subst hfold
      exact hacc
  | cons i rest ih =>
      intro acc res hacc hfold
      rw [List.foldlM_cons] at hfold
      cases hstep : buildILHUStep loadIdx unloadIdx n acc i with
      | none => rw [hstep] at hfold; simp at hfold
      | some acc2 =>
          rw [hstep] at hfold
          refine ih acc2 res ?_ hfold
          intro e he
          unfold buildILHUStep at hstep
          split at hstep
          · rename_i a b c d h0 h1 h2 h3
            split at hstep
            · split at hstep
              · injection hstep with hstep
                subst hstep
                rcases List.mem_append.mp he with hin | hin
                · exact hacc e hin
                · right
                  rename_i hord hbnd
                  refine ⟨a, b, c, d, List.mem_singleton.mp hin,
                    ?_, ?_, ?_, ?_, ?_⟩ <;> omega
              · injection hstep with hstep
                subst hstep
                split at he
                · rcases List.mem_append.mp he with hin | hin
                  · exact hacc e hin
                  · exact Or.inl (List.mem_singleton.mp hin)
                · exact hacc e he
            · injection hstep with hstep
              subst hstep
              split at he
              · rcases List.mem_append.mp he with hin | hin
                · exact hacc e hin
                · exact Or.inl (List.mem_singleton.mp hin)
              · exact hacc e he
          · exact Option.noConfusion hstep

/-- C3 (amended): every entry of the cycle list built by
`identifyLoadHoldUnload` is either an ordered in-bounds 4-tuple
(`loadStart < loadEnd <= unloadStart < unloadEnd`, indices in
`(0, len(h))`) or the empty placeholder `[]` that the loop appends for a
malformed candidate once at least one valid cycle is already present; a
malformed candidate with no preceding valid cycle is dropped entirely. -/
theorem buildILHU_entries (loadIdx unloadIdx : List ℕ) (n : ℕ)
    (e : List ℕ) (he : e ∈ buildILHU loadIdx unloadIdx n) :
    e = [] ∨ ∃ a b c d, e = [a, b, c, d] ∧
      a < b ∧ b ≤ c ∧ c < d ∧ 0 < a ∧ d < n := by
  unfold buildILHU at he
  cases hfold : (List.range ((loadIdx.length + 1) / 2)).foldlM
      (buildILHUStep loadIdx unloadIdx n) [] with
  | none => rw [hfold] at he; simp at he
  | some l =>
      rw [hfold] at he
      exact buildILHUStep_foldlM_inv loadIdx unloadIdx n _ [] l
        (by intro e he; simp at he) hfold e he

/-- Witness for the amended C3: the single cycle built from edge lists
`[1,2]` / `[3,4]` with `len(h) = 10`. -/
theorem buildILHU_entries_witness :
    ([1, 2, 3, 4] : List ℕ) = [] ∨ ∃ a b c d,
      ([1, 2, 3, 4] : List ℕ) = [a, b, c, d] ∧
      a < b ∧ b ≤ c ∧ c < d ∧ 0 < a ∧ d < 10 :=
  buildILHU_entries [1, 2] [3, 4] 10 [1, 2, 3, 4] (by decide)

/-- Counterexample to C3 as stated: with edge lists `[1,2,5,7]` /
`[3,4,6,6]` the second candidate `(5,7,6,6)` violates the ordering, yet it
is not dropped without trace — an empty placeholder is appended after the
first valid cycle, so not every entry of `iLHU` is a 4-tuple. -/
theorem buildILHU_cex :
    buildILHU [1, 2, 5, 7] [3, 4, 6, 6] 10 = [[1, 2, 3, 4], []] ∧
    [] ∈ buildILHU [1, 2, 5, 7] [3, 4, 6, 6] 10 ∧
    ¬ (∀ e ∈ buildILHU [1, 2, 5, 7] [3, 4, 6, 6] 10, e.length = 4) := by
  decide

/-- Bounded read of a boolean mask at a possibly negative index, with the
`border_value=0` (False) padding scipy's morphology uses. -/
def getB (m : List Bool) (k : ℤ) : Bool :=
  if 0 ≤ k then m.getD k.toNat false else false

/-- Model of `scipy.ndimage.binary_dilation` with `structure=np.ones(size)`
(centre at `size/2`) and False border: entry `i` is the OR of the input over
the window of offsets `j - size/2`, `j < size`. -/
def binaryDilation (size : ℕ) (m : List Bool) : List Bool :=
  (List.range m.length).map fun i =>
    (List.range size).any fun j =>
      getB m ((i : ℤ) + (j : ℤ) - ((size / 2 : ℕ) : ℤ))

/-- Model of `scipy.ndimage.binary_erosion` with `structure=np.ones(size)`
and False border: entry `i` is the AND of the input over the window. -/
def binaryErosion (size : ℕ) (m : List Bool) : List Bool :=
  (List.range m.length).map fun i =>
    (List.range size).all fun j =>
      getB m ((i : ℤ) + (j : ℤ) - ((size / 2 : ℕ) : ℤ))

/-- `ndimage.binary_closing`: dilation followed by erosion
(main.py lines 203-204). -/
def binaryClosing (size : ℕ) (m : List Bool) : List Bool :=
  binaryErosion size (binaryDilation size m)

/-- `ndimage.binary_opening`: erosion followed by dilation
(main.py lines 205-206). -/
def binaryOpening (size : ℕ) (m : List Bool) : List Bool :=
  binaryDilation size (binaryErosion size m)

/-- Edge extraction of `identifyLoadHoldUnload` (main.py lines 230-233):
pad the mask with False on both sides and return the indices where
consecutive padded entries differ
(`np.flatnonzero(mask[1:] != mask[:-1])`). -/
def maskEdges (m : List Bool) : List ℕ :=
  let padded := false :: (m ++ [false])
  (List.range (padded.length - 1)).filter fun i =>
    padded.getD (i + 1) false != padded.getD i false

/-- The loading-front cleanup loop of `identifyLoadHoldUnload`
(main.py lines 237-239): while `len(unloadIdx) < len(loadIdx)` and
`loadIdx[2] < unloadIdx[0]`, drop the leading load pair.  Evaluating the
condition itself indexes `loadIdx[2]` and `unloadIdx[0]`, so when either is
missing the uncaught `IndexError` propagates. -/
def cleanLoadFront : List ℕ → List ℕ → Except String (List ℕ)
  | a :: b :: rest, unloadIdx =>
      if unloadIdx.length < (a :: b :: rest : List ℕ).length then
        match (a :: b :: rest : List ℕ).get? 2, unloadIdx.get? 0 with
        | some l2, some u0 =>
            if l2 < u0 then cleanLoadFront rest unloadIdx
            else .ok (a :: b :: rest)
        | _, _ => .error "IndexError"
      else .ok (a :: b :: rest)
  | loadIdx, unloadIdx =>
      if unloadIdx.length < loadIdx.length then
        .error "IndexError"
      else .ok loadIdx

/-- Drift-segment derivation of `identifyLoadHoldUnload`
(main.py lines 284-291): `iDriftS = unloadIdx[1::2][-1]+1`,
`iDriftE = len(p)-1`, clamped so the window has at least one sample; the
`except:` turns the `IndexError` of an empty odd slice into `[-1,-1]`. -/
def driftPair (unloadIdx : List ℕ) (n : ℕ) : ℤ × ℤ :=
  let odds := (List.range unloadIdx.length).filter (fun i => i % 2 == 1)
  match (odds.map (fun i => unloadIdx.getD i 0)).getLast? with
  | none => (-1, -1)
  | some lastU =>
      let iDriftS : ℤ := (lastU : ℤ) + 1
      let iDriftE : ℤ := (n : ℤ) - 1
      let iDriftS := if iDriftS + 1 > iDriftE then iDriftE - 1 else iDriftS
      (iDriftS, iDriftE)

/-- Tail of `identifyLoadHoldUnload` after the edge lists are fixed up:
the loading-front cleanup loop, the cycle-zipping loop producing `iLHU`
(the length-mismatch check on line 260 only logs), and the drift segment. -/
def segmentFinish (loadIdx unloadIdx : List ℕ) (n : ℕ) :
    Except String (List (List ℕ) × ℤ × ℤ) :=
  match cleanLoadFront loadIdx unloadIdx with
  | .error e => .error e
  | .ok loadIdx2 =>
      .ok (buildILHU loadIdx2 unloadIdx n, driftPair unloadIdx n)

/-- Translation of the non-CSM part of `identifyLoadHoldUnload`
(main.py lines 200-292) from the point where the loading and unloading masks
have been computed.  `size` is `model['maxSizeFluctuations']`, `n` is
`len(self.h)` after the duplicate-timestamp trim.  The cleaned masks
`loadMaskTry`/`unloadMaskTry` are only assigned inside the
`len(loadMask)>100 and len(unloadMask)>100` guard (lines 201-206), yet line
207 reads them unconditionally, so for shorter traces the function raises
`UnboundLocalError`; this is the `.error` branch.  The partial-unload drift
heuristic (lines 234-236) reads `loadIdx[-1]`, raising `IndexError` when
the load edge list is empty. -/
def identifyLoadHoldUnloadCore (size : ℕ) (loadMask unloadMask : List Bool)
    (n : ℕ) : Except String (List (List ℕ) × ℤ × ℤ) :=
  if 100 < loadMask.length ∧ 100 < unloadMask.length then
    let loadMaskTry := binaryOpening size (binaryClosing size loadMask)
    let unloadMaskTry := binaryOpening size (binaryClosing size unloadMask)
    let keep := loadMaskTry.any id ∧ unloadMaskTry.any id
    let loadMask2 := if keep then loadMaskTry else loadMask
    let unloadMask2 := if keep then unloadMaskTry else unloadMask
    let loadIdx := maskEdges loadMask2
    let unloadIdx := maskEdges unloadMask2
    if unloadIdx.length = loadIdx.length + 2 then
      match loadIdx.getLast? with
      | none => .error "IndexError"
      | some lastL =>
          let unloadIdx2 :=
            if (unloadIdx.drop (unloadIdx.length - 4)).all
                (fun u => lastL < u) then
              unloadIdx.take (unloadIdx.length - 2)
            else unloadIdx
          segmentFinish loadIdx unloadIdx2 n
    else segmentFinish loadIdx unloadIdx n
  else .error "UnboundLocalError"

/-- C6: with no sample classified as loading or unloading (both masks all
False), a long trace (mask length above 100) returns normally with an empty
cycle list and the fallback drift pair — but a short trace does not return
at all: the unconditional read of `loadMaskTry` on main.py line 207 raises
`UnboundLocalError`, because the variable is only assigned when both masks
have more than 100 samples.  The claim's "regardless of the length of the
trace" is therefore wrong about the code. -/
theorem identifyLHU_empty_masks :
    identifyLoadHoldUnloadCore 10 (List.replicate 50 false)
      (List.replicate 50 false) 51 = Except.error "UnboundLocalError" ∧
    identifyLoadHoldUnloadCore 10 (List.replicate 101 false)
      (List.replicate 101 false) 102 = Except.ok ([], (-1, -1)) := by
  constructor
  · rfl
  · rfl

/-- Selection of the entries of a data array under a boolean mask, the numpy
idiom `x[mask]`. -/
def maskSelect (xs : List ℚ) (mask : List Bool) : List ℚ :=
  ((xs.zip mask).filter (fun ab => ab.2)).map (fun ab => ab.1)

/-- Unloading-window mask of one cycle in `stiffnessFromUnloading`
(theory.py lines 140-143): `maskSegment` covers indices
`unloadStart..unloadEnd` (the slice `unloadStart:unloadEnd+1`), `maskForce`
keeps forces strictly between `unloadPMin*p[loadEnd]` and
`unloadPMax*p[loadEnd]`, and the cycle mask is their conjunction. -/
def unloadingMask (unloadPMin unloadPMax : ℚ) (p : List ℚ)
    (loadEnd unloadStart unloadEnd : ℕ) : List Bool :=
  let pLE := p.getD loadEnd 0
  (List.range p.length).map fun i =>
    if (unloadStart ≤ i ∧ i ≤ unloadEnd) ∧
        (p.getD i 0 < pLE * unloadPMax ∧ pLE * unloadPMin < p.getD i 0) then
      true
    else false

/-- Minimum of a numeric array, `np.min` (0 on the empty array, which the
source never reaches). -/
def qMin (l : List ℚ) : ℚ :=
  match l with
  | [] => 0
  | x :: xs => xs.foldl min x

/-- Box constraints handed to `scipy.optimize.curve_fit`; `B` has no upper
bound (`np.inf`). -/
structure UnloadingBounds where
  lowerB : ℚ
  lowerHf : ℚ
  lowerM : ℚ
  upperHf : ℚ
  upperM : ℚ

/-- The bounds built by `stiffnessFromUnloading` (theory.py line 156):
`[[0, 0, 0.8], [np.inf, max(np.min(h[mask]), hf0), 10]]` with
`hf0 = h[mask][-1]/2.0` (line 153). -/
def unloadingFitBounds (hSel : List ℚ) : UnloadingBounds :=
  ⟨0, 0, 8/10, max (qMin hSel) (hSel.getLast?.getD 0 / 2), 10⟩

/-- Membership of a parameter triple `(B, hf, m)` in the box constraints,
which bounded least squares guarantees for its result. -/
def inBounds (bd : UnloadingBounds) (B hf m : ℚ) : Prop :=
  bd.lowerB ≤ B ∧ bd.lowerHf ≤ hf ∧ hf ≤ bd.upperHf ∧
    bd.lowerM ≤ m ∧ m ≤ bd.upperM

/-- Decidability of the box constraints, so concrete instances evaluate. -/
instance (bd : UnloadingBounds) (B hf m : ℚ) :
    Decidable (inBounds bd B hf m) := by
  unfold inBounds
  infer_instance

/-- Per-cycle loop of `stiffnessFromUnloading`
(theory.py lines 136-192), parameterized by two oracles for the library
calls: `powQ` stands for `math.pow`/`np.power`, and `curveFit` for
`scipy.optimize.curve_fit` on `p = B*(h-hf)^m` with initial guess
`(B0, hf0, m0)` and the box constraints (returning `none` when the fit
raises or yields a NaN scale, the case the source catches to trigger the
linear-secant fallback `B = dp/dh`, `hf = h0 - p0/B`, `m = 1`).  For each
cycle: build the force-window mask; if it selects nothing
(`len(mask[mask])==0`) the WHOLE function returns `None` for all five
outputs (line 146) — results of previously processed cycles are discarded;
otherwise fit (or fall back) and append the stiffness
`B*m*(h_eval - hf)^(m-1)` with `h_eval = h[unloadStart]` when
`model['evaluateSAtMax']` else the first selected depth, and a flag for
whether the power-law fit succeeded. -/
def stiffnessCycles (evaluateSAtMax : Bool) (unloadPMin unloadPMax : ℚ)
    (powQ : ℚ → ℚ → ℚ)
    (curveFit : List ℚ → List ℚ → ℚ × ℚ × ℚ → UnloadingBounds →
      Option (ℚ × ℚ × ℚ))
    (p h : List ℚ) : List (ℕ × ℕ × ℕ × ℕ) → Option (List ℚ × List Bool)
  | [] => some ([], [])
  | (_, loadEnd, unloadStart, unloadEnd) :: rest =>
      let mask := unloadingMask unloadPMin unloadPMax p loadEnd
        unloadStart unloadEnd
      if mask.count true = 0 then none
      else
        let hSel := maskSelect h mask
        let pSel := maskSelect p mask
        let hf0 := hSel.getLast?.getD 0 / 2
        let m0 : ℚ := 2
        let B0 := max |pSel.headD 0 / powQ (hSel.headD 0 - hf0) m0| (1/1000)
        let fitRes := curveFit hSel pSel (B0, hf0, m0) (unloadingFitBounds hSel)
        let fitted :=
          match fitRes with
          | some (B, hf, m) => (B, hf, m, true)
          | none =>
              let B := (pSel.getLast?.getD 0 - pSel.headD 0) /
                (hSel.getLast?.getD 0 - hSel.headD 0)
              (B, hSel.headD 0 - pSel.headD 0 / B, 1, false)
        let stiffnessPlot :=
          if evaluateSAtMax then
            fitted.1 * fitted.2.2.1 *
              powQ (h.getD unloadStart 0 - fitted.2.1) (fitted.2.2.1 - 1)
          else
            fitted.1 * fitted.2.2.1 *
              powQ (hSel.headD 0 - fitted.2.1) (fitted.2.2.1 - 1)
        match stiffnessCycles evaluateSAtMax unloadPMin unloadPMax powQ
          curveFit p h rest with
        | none => none
        | some (ss, pls) => some (stiffnessPlot :: ss, fitted.2.2.2 :: pls)

/-- Entry point of the non-CSM `stiffnessFromUnloading`: iterate the cycle
loop over `self.iLHU`. -/
def stiffnessFromUnloading (evaluateSAtMax : Bool)
    (unloadPMin unloadPMax : ℚ) (powQ : ℚ → ℚ → ℚ)
    (curveFit : List ℚ → List ℚ → ℚ × ℚ × ℚ → UnloadingBounds →
      Option (ℚ × ℚ × ℚ))
    (p h : List ℚ) (iLHU : List (ℕ × ℕ × ℕ × ℕ)) :
    Option (List ℚ × List Bool) :=
  stiffnessCycles evaluateSAtMax unloadPMin unloadPMax powQ curveFit p h iLHU

/-- C4 (amended): when the force-window selection of ANY cycle is empty,
`stiffnessFromUnloading` returns `None` for the whole test — the failure is
not isolated to the offending cycle, and stiffness values of the other
cycles of the same test are not returned either. -/
theorem stiffnessFromUnloading_empty_mask_aborts (evaluateSAtMax : Bool)
    (unloadPMin unloadPMax : ℚ) (powQ : ℚ → ℚ → ℚ)
    (curveFit : List ℚ → List ℚ → ℚ × ℚ × ℚ → UnloadingBounds →
      Option (ℚ × ℚ × ℚ))
    (p h : List ℚ) (iLHU : List (ℕ × ℕ × ℕ × ℕ))
    (hempty : ∃ c ∈ iLHU,
      (unloadingMask unloadPMin unloadPMax p c.2.1 c.2.2.1 c.2.2.2).count
        true = 0) :
    stiffnessFromUnloading evaluateSAtMax unloadPMin unloadPMax powQ
      curveFit p h iLHU = none := by
  unfold stiffnessFromUnloading
  induction iLHU with
  | nil => obtain ⟨c, hc, -⟩ := hempty; exact absurd hc (List.not_mem_nil c)
  | cons c0 rest ih =>
      obtain ⟨c, hc, hcm⟩ := hempty
      obtain ⟨a, b, u, v⟩ := c0
      show (if (unloadingMask unloadPMin unloadPMax p b u v).count true = 0
        then none else _) = none
      rcases List.mem_cons.mp hc with rfl | hin
      · rw [if_pos hcm]
      · by_cases h0 : (unloadingMask unloadPMin unloadPMax p b u v).count
            true = 0
        · rw [if_pos h0]
        · rw [if_neg h0]
          have hrest := ih ⟨c, hin, hcm⟩
          simp only [hrest]

/-- The force-window mask of the first test cycle `(1,2,3,4)` of the
concrete fixture selects the two samples at indices 3 and 4. -/
theorem fixture_mask_first :
    unloadingMask (1/2) (99/100) [0, 1, 2, 3/2, 6/5, 2, 2, 2] 2 3 4 =
      [false, false, false, true, true, false, false, false] := by
  unfold unloadingMask
  norm_num [List.range_succ, List.getD]

/-- The force-window mask of the second test cycle `(5,6,7,7)` of the
concrete fixture selects nothing: the only candidate sample has the full
peak force, which is not strictly below `0.99*p[loadEnd]`. -/
theorem fixture_mask_second :
    unloadingMask (1/2) (99/100) [0, 1, 2, 3/2, 6/5, 2, 2, 2] 6 7 7 =
      [false, false, false, false, false, false, false, false] := by
  unfold unloadingMask
  norm_num [List.range_succ, List.getD]

/-- A test whose every cycle has a nonempty force window produces a
stiffness list (the loop never takes the `return None` branch). -/
theorem stiffnessCycles_isSome (evaluateSAtMax : Bool)
    (unloadPMin unloadPMax : ℚ) (powQ : ℚ → ℚ → ℚ)
    (curveFit : List ℚ → List ℚ → ℚ × ℚ × ℚ → UnloadingBounds →
      Option (ℚ × ℚ × ℚ))
    (p h : List ℚ) (iLHU : List (ℕ × ℕ × ℕ × ℕ))
    (hall : ∀ c ∈ iLHU,
      (unloadingMask unloadPMin unloadPMax p c.2.1 c.2.2.1 c.2.2.2).count
        true ≠ 0) :
    ∃ v, stiffnessCycles evaluateSAtMax unloadPMin unloadPMax powQ curveFit
      p h iLHU = some v := by
  induction iLHU with
  | nil => exact ⟨([], []), rfl⟩
  | cons c0 rest ih =>
      obtain ⟨a, b, u, v⟩ := c0
      have h0 := hall (a, b, u, v) (List.mem_cons_self _ _)
      dsimp only at h0
      obtain ⟨w, hw⟩ := ih (fun c hc => hall c (List.mem_cons_of_mem _ hc))
      simp only [stiffnessCycles, hw]
      rw [if_neg h0]
      exact ⟨_, rfl⟩

/-- Witness for the amended C4: a two-cycle test where the second cycle's
force window selects nothing. -/
theorem stiffnessFromUnloading_empty_mask_aborts_witness :
    stiffnessFromUnloading true (1/2) (99/100)
      (fun a b => if b = 0 then 1 else a) (fun _ _ _ _ => none)
      [0, 1, 2, 3/2, 6/5, 2, 2, 2] [0, 1, 2, 3, 4, 5, 6, 7]
      [(1, 2, 3, 4), (5, 6, 7, 7)] = none :=
  stiffnessFromUnloading_empty_mask_aborts true (1/2) (99/100)
    (fun a b => if b = 0 then 1 else a) (fun _ _ _ _ => none)
    [0, 1, 2, 3/2, 6/5, 2, 2, 2] [0, 1, 2, 3, 4, 5, 6, 7]
    [(1, 2, 3, 4), (5, 6, 7, 7)]
    ⟨(5, 6, 7, 7), by simp, by rw [fixture_mask_second]; rfl⟩

/-- Counterexample to C4 as stated: the first cycle alone is fitted and its
stiffness returned, but once the second cycle's force window is empty the
whole return degrades to `None` — the first cycle's stiffness is NOT still
returned, so cycle-level isolation fails. -/
theorem stiffnessFromUnloading_not_isolated :
    stiffnessFromUnloading true (1/2) (99/100)
      (fun a b => if b = 0 then 1 else a) (fun _ _ _ _ => none)
      [0, 1, 2, 3/2, 6/5, 2, 2, 2] [0, 1, 2, 3, 4, 5, 6, 7]
      [(1, 2, 3, 4)] ≠ none ∧
    stiffnessFromUnloading true (1/2) (99/100)
      (fun a b => if b = 0 then 1 else a) (fun _ _ _ _ => none)
      [0, 1, 2, 3/2, 6/5, 2, 2, 2] [0, 1, 2, 3, 4, 5, 6, 7]
      [(1, 2, 3, 4), (5, 6, 7, 7)] = none := by
  constructor
  · obtain ⟨w, hw⟩ := stiffnessCycles_isSome true (1/2) (99/100)
      (fun a b => if b = 0 then 1 else a) (fun _ _ _ _ => none)
      [0, 1, 2, 3/2, 6/5, 2, 2, 2] [0, 1, 2, 3, 4, 5, 6, 7]
      [(1, 2, 3, 4)]
      (by
        intro c hc
        rw [List.mem_singleton] at hc
        subst hc
        dsimp only
        rw [fixture_mask_first]
        decide)
    unfold stiffnessFromUnloading
    rw [hw]
    simp
  · unfold stiffnessFromUnloading
    simp only [stiffnessCycles]
    have h2 : (unloadingMask (1/2) (99/100)
        [0, 1, 2, 3/2, 6/5, 2, 2, 2] 6 7 7).count true = 0 := by
      rw [fixture_mask_second]; rfl
    rw [if_pos h2]
    simp

/-- C5 (amended): every parameter triple inside the box constraints the
source hands to `curve_fit` satisfies `B >= 0`, `0 <= hf`,
`hf <= max(min(h[mask]), h[mask][-1]/2)` and `0.8 <= m <= 10`; the claimed
`hf <= min(h[mask])` only follows when half the last selected depth does
not exceed the minimum selected depth (as with monotonically decreasing
unloading data). -/
theorem unloadingFitBounds_params (hSel : List ℚ) (B hf m : ℚ)
    (hne : hSel ≠ [])
    (hin : inBounds (unloadingFitBounds hSel) B hf m) :
    0 ≤ B ∧ 0 ≤ hf ∧
    hf ≤ max (qMin hSel) (hSel.getLast?.getD 0 / 2) ∧
    (8/10 : ℚ) ≤ m ∧ m ≤ 10 ∧
    (hSel.getLast?.getD 0 / 2 ≤ qMin hSel → hf ≤ qMin hSel) := by
  obtain ⟨h1, h2, h3, h4, h5⟩ := hin
  refine ⟨h1, h2, h3, h4, h5, fun hhalf => ?_⟩
  calc hf ≤ max (qMin hSel) (hSel.getLast?.getD 0 / 2) := h3
    _ = qMin hSel := max_eq_left hhalf

/-- Witness for the amended C5 with selected depths `[2, 1]` and the triple
`(0, 1, 1)`. -/
theorem unloadingFitBounds_params_witness :
    0 ≤ (0:ℚ) ∧ 0 ≤ (1:ℚ) ∧
    (1:ℚ) ≤ max (qMin [2, 1]) (([2, 1] : List ℚ).getLast?.getD 0 / 2) ∧
    (8/10 : ℚ) ≤ 1 ∧ (1:ℚ) ≤ 10 ∧
    (([2, 1] : List ℚ).getLast?.getD 0 / 2 ≤ qMin [2, 1] →
      (1:ℚ) ≤ qMin [2, 1]) :=
  unloadingFitBounds_params [2, 1] 0 1 1 (by simp)
    (by norm_num [inBounds, unloadingFitBounds, qMin, List.getLast?,
      min_def, max_def])

/-- Counterexample to C5 as stated: with selected depths `[1, 4]` the
source's upper bound for `hf` is `max(min(h[mask]), h[mask][-1]/2) = 2`,
so the triple `(B, hf, m) = (1, 2, 2)` lies inside the bounds handed to the
bounded fit while `hf = 2` exceeds the shallowest selected depth `1`: the
fit is NOT constrained so that `hf <= min(h[mask])`. -/
theorem unloadingFitBounds_cex :
    inBounds (unloadingFitBounds [1, 4]) 1 2 2 ∧
    qMin [1, 4] = 1 ∧ ¬ ((2:ℚ) ≤ qMin [1, 4]) := by
  norm_num [inBounds, unloadingFitBounds, qMin, List.getLast?,
    min_def, max_def]

/-- Selection of the entries of a real data array under a boolean mask,
the numpy idiom `x[mask]`. -/
def maskSelectR (xs : List ℝ) (mask : List Bool) : List ℝ :=
  ((xs.zip mask).filter (fun ab => ab.2)).map (fun ab => ab.1)

/-- Maximum of a numeric array, `np.max` (0 on the empty array, which the
source never reaches). -/
noncomputable def rMax (l : List ℝ) : ℝ :=
  match l with
  | [] => 0
  | a :: t => t.foldl max a

/-- Closed-form least-squares line fit `y = a*x + b`, the unique solution
computed by `np.polyfit(x, y, 1)` on non-degenerate data (normal
equations); returns `(slope, intercept)`. -/
noncomputable def polyfit1 (x y : List ℝ) : ℝ × ℝ :=
  let n : ℝ := x.length
  let sx := x.sum
  let sy := y.sum
  let sxy := (List.zipWith (fun a b => a * b) x y).sum
  let sxx := (x.map (fun v => v * v)).sum
  let a := (n * sxy - sx * sy) / (n * sxx - sx * sx)
  (a, (sy - a * sx) / n)

open Classical in
/-- Depth/force filter of the non-CSM branch of `calibrateStiffness`
(calibration.py lines 189-190): `hAll > critDepth` AND `pAll > critForce`,
both strict. -/
noncomputable def stiffnessFilterMask (critDepth critForce : ℝ)
    (hAll pAll : List ℝ) : List Bool :=
  List.zipWith
    (fun hv pv => if critDepth < hv ∧ critForce < pv then true else false)
    hAll pAll

open Classical in
/-- Primary filter of the CSM branch of `calibrateStiffness`
(calibration.py line 163): `h > critDepth` AND `x < 1/sqrt(critForce)`
(faithful for `critForce > 0`; the source's float arithmetic gives
`inf` at zero). -/
noncomputable def csmFilterMask (critDepth critForce : ℝ)
    (h x : List ℝ) : List Bool :=
  List.zipWith
    (fun hv xv =>
      if critDepth < hv ∧ xv < 1 / Real.sqrt critForce then true else false)
    h x

open Classical in
/-- Relaxed filter of the CSM branch (calibration.py line 166), used only
when the primary filter is empty: `h > np.max(h)*0.5` AND
`x < np.max(x)*0.5`. -/
noncomputable def csmRelaxedMask (h x : List ℝ) : List Bool :=
  List.zipWith
    (fun hv xv =>
      if rMax h * 0.5 < hv ∧ xv < rMax x * 0.5 then true else false)
    h x

/-- Non-CSM branch of `calibrateStiffness` (calibration.py lines 167-204)
from the point where the per-test loop has assembled `pAll`, `hAll`,
`sAll`: set `x = 1/sqrt(pAll)`, `y = 1/sAll`, filter by the depth and force
minima, and — with NO relaxation in this branch — return `None` when the
filter is empty (line 194), else the intercept of the least-squares line as
`frameCompliance` (lines 196-199). -/
noncomputable def calibrateStiffnessNonCSM (critDepth critForce : ℝ)
    (pAll hAll sAll : List ℝ) : Option ℝ :=
  let x := pAll.map (fun pv => 1 / Real.sqrt pv)
  let y := sAll.map (fun sv => 1 / sv)
  let mask := stiffnessFilterMask critDepth critForce hAll pAll
  if mask.count true = 0 then none
  else some (polyfit1 (maskSelectR x mask) (maskSelectR y mask)).2

/-- CSM branch of `calibrateStiffness` (calibration.py lines 148-166 and
192-204) from the point where the per-test loop has assembled `x`, `y`,
`h`: filter by the primary mask; when it is empty, warn and relax to the
top-50% mask; if the mask in force is still empty return `None`, else the
intercept of the least-squares line. -/
noncomputable def calibrateStiffnessCSM (critDepth critForce : ℝ)
    (x y h : List ℝ) : Option ℝ :=
  let mask0 := csmFilterMask critDepth critForce h x
  let mask := if mask0.count true = 0 then csmRelaxedMask h x else mask0
  if mask.count true = 0 then none
  else some (polyfit1 (maskSelectR x mask) (maskSelectR y mask)).2

/-- C7 (amended): `calibrateStiffness` regresses `y = 1/S` against
`x = 1/sqrt(P)` and returns the intercept as `frameCompliance`; but the
top-50% relaxation exists only in the CSM branch.  In the non-CSM branch an
empty depth/force filter fails immediately with `None` and no relaxation;
in the CSM branch, when the primary filter is empty the relaxed mask
`h > max(h)/2, x < max(x)/2` is used, and only if that is also empty does
the function fail. -/
theorem calibrateStiffness_policy (critDepth critForce : ℝ)
    (pAll hAll sAll x y h : List ℝ) :
    ((stiffnessFilterMask critDepth critForce hAll pAll).count true ≠ 0 →
      calibrateStiffnessNonCSM critDepth critForce pAll hAll sAll =
        some (polyfit1
          (maskSelectR (pAll.map (fun pv => 1 / Real.sqrt pv))
            (stiffnessFilterMask critDepth critForce hAll pAll))
          (maskSelectR (sAll.map (fun sv => 1 / sv))
            (stiffnessFilterMask critDepth critForce hAll pAll))).2) ∧
    ((stiffnessFilterMask critDepth critForce hAll pAll).count true = 0 →
      calibrateStiffnessNonCSM critDepth critForce pAll hAll sAll = none) ∧
    ((csmFilterMask critDepth critForce h x).count true = 0 →
      (csmRelaxedMask h x).count true = 0 →
      calibrateStiffnessCSM critDepth critForce x y h = none) ∧
    ((csmFilterMask critDepth critForce h x).count true = 0 →
      (csmRelaxedMask h x).count true ≠ 0 →
      calibrateStiffnessCSM critDepth critForce x y h =
        some (polyfit1 (maskSelectR x (csmRelaxedMask h x))
          (maskSelectR y (csmRelaxedMask h x))).2) := by
  refine ⟨fun hne => ?_, fun he => ?_, fun he hre => ?_, fun he hrne => ?_⟩
  · unfold calibrateStiffnessNonCSM
    rw [if_neg hne]
  · unfold calibrateStiffnessNonCSM
    rw [if_pos he]
  · unfold calibrateStiffnessCSM
    dsimp only
    rw [if_pos he, if_pos hre]
  · unfold calibrateStiffnessCSM
    dsimp only
    rw [if_pos he, if_neg hrne]

/-- Witness for the amended C7: a single qualifying non-CSM point and a
CSM data set caught only by the relaxed filter. -/
theorem calibrateStiffness_policy_witness :
    calibrateStiffnessNonCSM 0 0 [4] [1] [2] =
      some (polyfit1
        (maskSelectR (([4] : List ℝ).map (fun pv => 1 / Real.sqrt pv))
          (stiffnessFilterMask 0 0 [1] [4]))
        (maskSelectR (([2] : List ℝ).map (fun sv => 1 / sv))
          (stiffnessFilterMask 0 0 [1] [4]))).2 :=
  (calibrateStiffness_policy 0 0 [4] [1] [2] [] [] []).1
    (by norm_num [stiffnessFilterMask])

/-- Helper: the non-CSM stiffness filter on the fixture
`pAll=[4,100], hAll=[1,3]` with `critDepth = 4` keeps nothing, so the
non-CSM calibration fails. -/
theorem fixture_nonCSM_fails :
    calibrateStiffnessNonCSM 4 0 [4, 100] [1, 3] [2, 2] = none := by
  unfold calibrateStiffnessNonCSM
  rw [if_pos (by norm_num [stiffnessFilterMask])]

/-- Counterexample to C7 as stated: on the non-CSM fixture the depth filter
leaves zero points and `calibrateStiffness` fails immediately with no
compliance — even though the claimed top-50% relaxed set is nonempty
(depth 3 > max/2 = 1.5 and x = 1/10 < max(x)/2 = 1/4), so the promised
relax-then-fail policy does not happen in this branch. -/
theorem calibrateStiffness_no_relax_nonCSM :
    calibrateStiffnessNonCSM 4 0 [4, 100] [1, 3] [2, 2] = none ∧
    (csmRelaxedMask [1, 3]
      (([4, 100] : List ℝ).map (fun pv => 1 / Real.sqrt pv))).count true ≠
      0 := by
  constructor
  · exact fixture_nonCSM_fails
  · have h4 : Real.sqrt 4 = 2 := by
      rw [show (4:ℝ) = 2^2 by norm_num, Real.sqrt_sq (by norm_num)]
    have h100 : Real.sqrt 100 = 10 := by
      rw [show (100:ℝ) = 10^2 by norm_num, Real.sqrt_sq (by norm_num)]
    simp only [List.map_cons, List.map_nil, h4, h100]
    norm_num [csmRelaxedMask, rMax, max_def]

/-- Mutable Tip state: `compliance` is a Python float-or-None slot
(assigned `None` by a failed calibration), `shape` the prefactor
representation. -/
structure TipState where
  compliance : Option ℝ
  shape : TipShape

/-- State-passing view of the non-CSM `calibrateStiffness`
(calibration.py lines 192-204 and 227): the insufficient-data path returns
`None` at line 194 BEFORE the mutation `self.tip.compliance =
frameCompliance` at line 204, so the Tip is untouched on failure and
updated on success. -/
noncomputable def calibrateStiffnessST (tip : TipState)
    (critDepth critForce : ℝ) (pAll hAll sAll : List ℝ) :
    Option ℝ × TipState :=
  match calibrateStiffnessNonCSM critDepth critForce pAll hAll sAll with
  | none => (none, tip)
  | some fc => (some fc, ⟨some fc, tip.shape⟩)

/-- Opening of the `calibration` wrapper (calibration.py lines 26-35): it
calls `calibrateStiffness` and then assigns the returned value to
`self.tip.compliance` unconditionally (line 33) — also when the stiffness
stage failed and returned `None`. -/
noncomputable def calibrationStep1 (tip : TipState)
    (critDepth critForce : ℝ) (pAll hAll sAll : List ℝ) :
    Option ℝ × TipState :=
  let r := calibrateStiffnessST tip critDepth critForce pAll hAll sAll
  (r.1, ⟨r.1, r.2.shape⟩)

/-- C8 (amended): when the stiffness-stage filter leaves no points,
`calibrateStiffness` itself returns `None` with the Tip completely
untouched; but the `calibration` wrapper then assigns that `None` to
`tip.compliance` (calibration.py line 33), so the failed calibration run
does modify `tip.compliance` — only the shape coefficients are left
unchanged at that point. -/
theorem calibrateStiffness_failure_tip (tip : TipState)
    (critDepth critForce : ℝ) (pAll hAll sAll : List ℝ)
    (hfail : calibrateStiffnessNonCSM critDepth critForce pAll hAll sAll =
      none) :
    calibrateStiffnessST tip critDepth critForce pAll hAll sAll =
      (none, tip) ∧
    (calibrationStep1 tip critDepth critForce pAll hAll sAll).2.compliance =
      none ∧
    (calibrationStep1 tip critDepth critForce pAll hAll sAll).2.shape =
      tip.shape := by
  have h1 : calibrateStiffnessST tip critDepth critForce pAll hAll sAll =
      (none, tip) := by
    unfold calibrateStiffnessST
    rw [hfail]
  refine ⟨h1, ?_, ?_⟩ <;>
    · unfold calibrationStep1
      rw [h1]

/-- Witness for the amended C8 on the failing fixture, with an initially
calibrated Tip. -/
theorem calibrateStiffness_failure_tip_witness :
    calibrateStiffnessST ⟨some (1/1000), TipShape.perfect⟩ 4 0
      [4, 100] [1, 3] [2, 2] = (none, ⟨some (1/1000), TipShape.perfect⟩) ∧
    (calibrationStep1 ⟨some (1/1000), TipShape.perfect⟩ 4 0
      [4, 100] [1, 3] [2, 2]).2.compliance = none ∧
    (calibrationStep1 ⟨some (1/1000), TipShape.perfect⟩ 4 0
      [4, 100] [1, 3] [2, 2]).2.shape =
      (⟨some (1/1000), TipShape.perfect⟩ : TipState).shape :=
  calibrateStiffness_failure_tip ⟨some (1/1000), TipShape.perfect⟩ 4 0
    [4, 100] [1, 3] [2, 2] fixture_nonCSM_fails

/-- Counterexample to C8 as stated: after the failed calibration run on the
fixture, `tip.compliance` has been overwritten with `None`, although it
held a real compliance before — the Tip state is mutated by the failing
`calibration` run. -/
theorem calibration_corrupts_tip :
    (calibrationStep1 ⟨some (1/1000), TipShape.perfect⟩ 4 0
      [4, 100] [1, 3] [2, 2]).2.compliance = none ∧
    (⟨some (1/1000), TipShape.perfect⟩ : TipState).compliance ≠ none := by
  constructor
  · unfold calibrationStep1 calibrateStiffnessST
    rw [fixture_nonCSM_fails]
  · simp

end Micromechanics
